import Mathlib

/-!
Verification development for the multi-organization coordination layer of the
fabric-client-wrapper repository.

The embedding covers the two coordination components:

* `ChannelSetupServer` (the rendezvous barrier server): its construction,
  the connection / data / end socket handlers, `requestResponses` and
  `sendCompleted`.  Sockets are identified by natural numbers; a handler that
  writes to sockets returns the list of `(socket, message)` writes it performs.
  Registered waiter callbacks are identified by natural numbers; the data
  handler returns the list of callbacks it invokes, in invocation order.
* `MultiUserClient`: the ownership-partitioned fan-out operations
  `joinChannel` and `installChaincode`.  The per-organization sub-operation
  (`userClient.joinChannel` / `userClient.installChaincode`) is an external
  collaborator, so it is a parameter of the fan-out functions; its outcome is
  an `Except`, and `Promise.all` is embedded as `promiseAll`, which settles on
  the first rejection in dispatch order.

JavaScript / lodash primitives used by the source (`Array.prototype.splice`,
`Array.prototype.indexOf`, `String.prototype.split`, `_.uniq`,
`_.intersection`, `remove` from `lodash/array`) are embedded by functions
named `js...` / `lodash...` below, faithful to their documented semantics
including edge cases (e.g. `indexOf` returning `-1` and negative `splice`
indices).
-/

namespace Fcw

/-- Auxiliary recursion for `lodashUniq`: keeps the first occurrence of every
element, dropping elements already seen. -/
def lodashUniqAux (seen : List String) : List String → List String
  | [] => []
  | x :: xs => if seen.contains x then lodashUniqAux seen xs
               else x :: lodashUniqAux (x :: seen) xs

/-- lodash `_.uniq`: duplicate-free version of the list, keeping only the
first occurrence of each element, order preserved. -/
def lodashUniq (xs : List String) : List String := lodashUniqAux [] xs

/-- lodash `_.intersection(a, b)`: the unique values of `a` that are also
contained in `b`, in the order they appear in `a`. -/
def lodashIntersection (a b : List String) : List String :=
  (lodashUniq a).filter (fun x => b.contains x)

/-- Auxiliary recursion for `jsSplit`, carrying the (reversed) current
segment. -/
def jsSplitAux (sep : Char) (cur : List Char) : List Char → List (List Char)
  | [] => [cur.reverse]
  | c :: cs =>
      if c = sep then cur.reverse :: jsSplitAux sep [] cs
      else jsSplitAux sep (c :: cur) cs

/-- JavaScript `String.prototype.split` with a single-character separator:
`"A-Z".split('-') = ["A","Z"]`, `"".split('-') = [""]`,
`"A--B".split('-') = ["A","","B"]`. -/
def jsSplit (sep : Char) (s : String) : List String :=
  (jsSplitAux sep [] s.toList).map (fun cs => String.mk cs)

/-- JavaScript `Array.prototype.indexOf`: index of the first occurrence, or
`-1` when the element is absent. -/
def jsIndexOf (xs : List Nat) (x : Nat) : Int :=
  match xs with
  | [] => -1
  | y :: ys =>
      if y = x then 0
      else if jsIndexOf ys x = -1 then -1 else jsIndexOf ys x + 1

/-- JavaScript `Array.prototype.splice(start, 1)`: removes the single element
at `start` (a negative `start` counts from the end, clamped at `0`; a `start`
at or past the length removes nothing). -/
def jsSpliceRemoveOne {α : Type} (xs : List α) (start : Int) : List α :=
  let len : Int := xs.length
  let actual : Nat := (if start < 0 then max (len + start) 0 else min start len).toNat
  xs.take actual ++ xs.drop (actual + 1)

/-! ### Data model shared by both components

A `Peer` is an administrable node: `getMspId()` is the organization under
which it was provisioned and `getAdminMspIds()` the organization identifiers
authorized to administer it.  Every embedded `Peer` carries these accessors,
i.e. it is an "fcw" peer in the source's sense: `isFcwPeer` is the structural
guard checking precisely that the peer exposes them, so on the embedded
`Peer` type that guard is identically true and the
`.filter(peer => isFcwPeer(peer))` steps of the source are the identity. -/

/-- A peer node: identity, provisioning organization (`getMspId`) and
admin-owner set (`getAdminMspIds`). -/
structure Peer where
  pid : Nat
  mspId : String
  adminMspIds : List String
deriving DecidableEq, Repr

/-- A per-organization user client; `mspId` is
`getOrganizationConfig().mspId` (equally `getMspId()` in the setup-server
constructor). -/
structure UserClient where
  mspId : String
deriving DecidableEq, Repr

/-- A channel, reduced to the peer list returned by `getPeers()`. -/
structure ChannelModel where
  peers : List Peer
deriving DecidableEq, Repr

/-! ### ChannelSetupServer -/

/-- Source constant `DEFAULT_PORT`. -/
def DEFAULT_PORT : Nat := 45207

/-- Source constant `SPLIT_CHAR` (the single-character string `'-'`). -/
def SPLIT_CHAR : Char := '-'

/-- The mutable state of a `ChannelSetupServer`: connected sockets
(`clients`), the expected identifier set (`externalMspIds`), the reported
identifier set (`mspResponses`), the registered waiter callbacks
(`waitResponsesCbs`, identified by numbers) and the round-in-progress flag
(`requesting`). -/
structure ServerState where
  clients : List Nat
  externalMspIds : List String
  mspResponses : List String
  waitResponsesCbs : List Nat
  requesting : Bool
  port : Nat
deriving DecidableEq, Repr

/-- Constructor options (`DistributedSetupChannelServerOpts`).  A field is
`none` when the JavaScript property is absent/undefined. -/
structure ServerOpts where
  userClient : Option UserClient
  channel : Option ChannelModel
  externalMspIds : Option (List String)
  port : Option Nat
deriving DecidableEq, Repr

/-- Resolution of `port || DEFAULT_PORT`: a missing or zero (falsy) port falls back to the
default. -/
def resolvePort : Option Nat → Nat
  | some p => if p = 0 then DEFAULT_PORT else p
  | none => DEFAULT_PORT

/-- The `ChannelSetupServer` constructor.  The expected set is taken directly
from `externalMspIds` when supplied; otherwise, when both `userClient` and
`channel` are present, it is derived as the distinct (`_.uniq`) provisioning
identifiers of the channel peers whose admin-owner set does not include the
local organization's identifier; otherwise the constructor throws, embedded
as `Except.error` (which carries no server state: no partial server). -/
def mkChannelSetupServer (opts : ServerOpts) : Except String ServerState :=
  match opts.externalMspIds with
  | some ids =>
      .ok { clients := [], externalMspIds := ids, mspResponses := [],
            waitResponsesCbs := [], requesting := false,
            port := resolvePort opts.port }
  | none =>
      match opts.userClient, opts.channel with
      | some uc, some ch =>
          let userMspId := uc.mspId
          let externalPeers := ch.peers.filter
            (fun peer => !(peer.adminMspIds.contains userMspId))
          .ok { clients := [],
                externalMspIds := lodashUniq (externalPeers.map (fun peer => peer.mspId)),
                mspResponses := [], waitResponsesCbs := [], requesting := false,
                port := resolvePort opts.port }
      | _, _ => .error "Error: either externalMspIds or userClient and channel are required"

/-- The connection handler (the `net.createServer` callback): pushes the
socket onto `clients` and, when `requesting` is set, writes `"request"` to
the new socket.  Returns the new state and the writes performed. -/
def handleConnection (s : ServerState) (sock : Nat) : ServerState × List (Nat × String) :=
  ({ s with clients := s.clients ++ [sock] },
   if s.requesting then [(sock, "request")] else [])

/-- The value assigned to `this.mspResponses` by the data handler:
`_.compose(_.intersection(this.externalMspIds), _.uniq)` applied to
`this.mspResponses.concat(message.split(SPLIT_CHAR))`. -/
def newResponses (s : ServerState) (message : String) : List String :=
  lodashIntersection s.externalMspIds
    (lodashUniq (s.mspResponses ++ jsSplit SPLIT_CHAR message))

/-- The socket `data` handler.  Accumulates the split message into
`mspResponses` (deduplicated and intersected with `externalMspIds`); when the
result has the same length as `externalMspIds` it invokes every registered
waiter callback, resets `mspResponses` to `[]` and `requesting` to `false`.
Returns the new state and the list of callbacks invoked, in invocation
order. -/
def handleData (s : ServerState) (message : String) : ServerState × List Nat :=
  let responses := newResponses s message
  if responses.length = s.externalMspIds.length then
    ({ s with mspResponses := [], requesting := false }, s.waitResponsesCbs)
  else
    ({ s with mspResponses := responses }, [])

/-- The socket `end` handler:
`this.clients.splice(this.clients.indexOf(socket), 1)`. -/
def handleEnd (s : ServerState) (sock : Nat) : ServerState :=
  { s with clients := jsSpliceRemoveOne s.clients (jsIndexOf s.clients sock) }

/-- Model of `requestResponses` (its synchronously-run promise executor): registers a
new waiter callback (identified by `cbId`) and writes `"request"` to every
connected socket.  Note that the source never assigns `this.requesting`
here.  Returns the new state and the writes performed. -/
def requestResponses (s : ServerState) (cbId : Nat) : ServerState × List (Nat × String) :=
  ({ s with waitResponsesCbs := s.waitResponsesCbs ++ [cbId] },
   s.clients.map (fun sock => (sock, "request")))

/-- Model of `sendCompleted`: writes `"complete"` to every connected socket; no state
change. -/
def sendCompleted (s : ServerState) : List (Nat × String) :=
  s.clients.map (fun sock => (sock, "complete"))

/-! ### Timed waiter model for `requestResponses`

A `requestResponses(timeout)` call creates one waiter: its own
`setTimeout` handle (modelled by an absolute `deadline` on a discrete clock)
and a promise that is `pending` until either the registered callback runs
(`clearTimeout` + `resolve`, status `resolved`) or the timer fires
(`reject` with the timeout error, status `timedOut`).  Waiters are
identified by their index in the `waiters` list, and the callback id pushed
onto `waitResponsesCbs` is that index.  The event-loop semantics of
`setTimeout` are captured by the `step` relation: a `fire i` event is
enabled only while waiter `i` is still pending (i.e. its timer has not been
cleared) and its deadline has been reached, and the clock cannot advance
past the deadline of a pending waiter without the timer firing first. -/

/-- Status of one `requestResponses` promise. -/
inductive WaiterStatus where
  | pending
  | resolved
  | timedOut
deriving DecidableEq, Repr

/-- One registered waiter: its timer's absolute deadline and its promise
status. -/
structure Waiter where
  deadline : Nat
  status : WaiterStatus
deriving DecidableEq, Repr

/-- Server state together with the waiter timers and a discrete clock. -/
structure TimedState where
  server : ServerState
  waiters : List Waiter
  now : Nat
deriving DecidableEq, Repr

/-- Events the server reacts to. -/
inductive SrvEvent where
  | connect (sock : Nat)
  | disconnect (sock : Nat)
  | recv (message : String)
  | callRequest (timeout : Nat)
  | fire (i : Nat)
  | tick
deriving DecidableEq, Repr

/-- Running one waiter callback: `clearTimeout(handle); resolve()`.  On a
pending waiter this settles the promise; on an already settled one both
calls are no-ops. -/
def resolveWaiter (w : Waiter) : Waiter :=
  if w.status = .pending then { w with status := .resolved } else w

/-- Invoke the callback of waiter `i` (no-op when `i` is out of range). -/
def invokeCb (ws : List Waiter) (i : Nat) : List Waiter :=
  match ws[i]? with
  | some w => ws.set i (resolveWaiter w)
  | none => ws

/-- Model of `this.waitResponsesCbs.forEach(cb => cb())`. -/
def invokeCbs (ws : List Waiter) (cbs : List Nat) : List Waiter :=
  cbs.foldl invokeCb ws

/-- One step of the barrier server's event loop.  `none` means the event is
not enabled in this state (a cleared or unexpired timer cannot fire; the
clock cannot skip past a pending waiter's deadline). -/
def step (st : TimedState) : SrvEvent → Option TimedState
  | .connect sock => some { st with server := (handleConnection st.server sock).1 }
  | .disconnect sock => some { st with server := handleEnd st.server sock }
  | .recv message =>
      let pr := handleData st.server message
      some { st with server := pr.1, waiters := invokeCbs st.waiters pr.2 }
  | .callRequest timeout =>
      some { st with
        server := (requestResponses st.server st.waiters.length).1,
        waiters := st.waiters ++ [{ deadline := st.now + timeout, status := .pending }] }
  | .fire i =>
      match st.waiters[i]? with
      | some w =>
          if w.status = .pending ∧ w.deadline ≤ st.now then
            some { st with waiters := st.waiters.set i { w with status := .timedOut } }
          else none
      | none => none
  | .tick =>
      if st.waiters.all (fun w => w.status != .pending || decide (st.now + 1 ≤ w.deadline)) then
        some { st with now := st.now + 1 }
      else none

/-- Clock invariant: no pending waiter's deadline is in the past. -/
def TimerInv (st : TimedState) : Prop :=
  ∀ w ∈ st.waiters, w.status = .pending → st.now ≤ w.deadline

/-! ### MultiUserClient fan-out operations -/

/-- The ownership test
`peer.getAdminMspIds().includes(userClient.getOrganizationConfig().mspId)`. -/
def ownsPeer (uc : UserClient) (peer : Peer) : Bool :=
  peer.adminMspIds.contains uc.mspId

/-- lodash `remove` (from `lodash/array`): removes every element matching the
predicate from the (mutated) array and returns the removed elements; the
pair is `(removed, remaining)`, both in original order. -/
def lodashRemove {α : Type} (pred : α → Bool) (xs : List α) : List α × List α :=
  (xs.filter pred, xs.filter (fun x => !pred x))

/-- The ownership partition computed by `joinChannel` / `installChaincode`:
iterate over `userClients` in order, each client removing (claiming) the
still-unclaimed peers it administers from the shared working list; clients
whose claimed set is empty contribute no entry. -/
def ownedPartition (clients : List UserClient) (peers : List Peer) :
    List (UserClient × List Peer) :=
  match clients with
  | [] => []
  | uc :: rest =>
      let pr := lodashRemove (fun peer => ownsPeer uc peer) peers
      if pr.1.length > 0 then (uc, pr.1) :: ownedPartition rest pr.2
      else ownedPartition rest pr.2

/-- Outcome of one per-organization sub-operation: the immediate `data` plus
the outcome that its own deferred `wait()` produces when invoked. -/
structure SubResponse (ε δ ω : Type) where
  data : δ
  wait : Except ε ω

/-- The aggregate returned by a fan-out operation: the collected immediate
data and, when the aggregate object carries a `wait` member at all
(`some`), the outcome that invoking that aggregate `wait()` produces. -/
structure AggregateResult (ε δ ω : Type) where
  data : List δ
  wait : Option (Except ε (List ω))

/-- JavaScript `Promise.all`: resolves with the list of results when every promise
resolves, and rejects with the first rejection in dispatch order
otherwise. -/
def promiseAll {ε α : Type} : List (Except ε α) → Except ε (List α)
  | [] => .ok []
  | .error e :: _ => .error e
  | .ok a :: rest =>
      match promiseAll rest with
      | .error e => .error e
      | .ok as => .ok (a :: as)

/-- Model of `MultiUserClient.joinChannel`: partitions the channel's peers by
ownership, dispatches `userClient.joinChannel` (the external collaborator
`call`) per non-empty partition, awaits all immediate results, and returns
the aggregate whose `wait` member runs `Promise.all` over the
own `wait()` of each sub-response. -/
def multiJoinChannel {ε δ ω : Type} (clients : List UserClient) (channel : ChannelModel)
    (call : UserClient → List Peer → Except ε (SubResponse ε δ ω)) :
    Except ε (AggregateResult ε δ ω) :=
  match promiseAll ((ownedPartition clients channel.peers).map (fun pr => call pr.1 pr.2)) with
  | .error e => .error e
  | .ok responses =>
      .ok { data := responses.map (fun r => r.data),
            wait := some (promiseAll (responses.map (fun r => r.wait))) }

/-- Model of `MultiUserClient.installChaincode`: same ownership-partitioned fan-out
over the request's target peers, but the returned aggregate carries only
`data` — the source returns `{ data: ... }` with no `wait` member. -/
def multiInstallChaincode {ε δ ω : Type} (clients : List UserClient) (targets : List Peer)
    (call : UserClient → List Peer → Except ε (SubResponse ε δ ω)) :
    Except ε (AggregateResult ε δ ω) :=
  match promiseAll ((ownedPartition clients targets).map (fun pr => call pr.1 pr.2)) with
  | .error e => .error e
  | .ok responses =>
      .ok { data := responses.map (fun r => r.data), wait := none }

/-! ### Helper lemmas about the JavaScript / lodash primitives -/

theorem contains_iff_mem {l : List String} {x : String} : l.contains x = true ↔ x ∈ l := by
  simp [List.contains]

theorem not_contains_iff_not_mem {l : List String} {x : String} :
    (!(l.contains x)) = true ↔ x ∉ l := by
  cases hb : l.contains x with
  | true => simp [contains_iff_mem.mp hb]
  | false =>
      have hx : x ∉ l := fun hc => by rw [contains_iff_mem.mpr hc] at hb; cases hb
      simp [hx]

theorem contains_eq_of_mem_iff {A B : List String} {x : String}
    (h : x ∈ A ↔ x ∈ B) : A.contains x = B.contains x := by
  cases hA : A.contains x with
  | true => exact (contains_iff_mem.mpr (h.mp (contains_iff_mem.mp hA))).symm
  | false =>
      cases hB : B.contains x with
      | true =>
          have hc : A.contains x = true :=
            contains_iff_mem.mpr (h.mpr (contains_iff_mem.mp hB))
          rw [hA] at hc; cases hc
      | false => rfl

theorem mem_lodashUniqAux {x : String} (l seen : List String) :
    x ∈ lodashUniqAux seen l ↔ x ∈ l ∧ x ∉ seen := by
  induction l generalizing seen with
  | nil => simp [lodashUniqAux]
  | cons y ys ih =>
      simp only [lodashUniqAux]
      by_cases h : seen.contains y = true
      · have hy : y ∈ seen := contains_iff_mem.mp h
        simp only [if_pos h, ih, List.mem_cons]
        constructor
        · rintro ⟨hx, hs⟩
          exact ⟨Or.inr hx, hs⟩
        · rintro ⟨hx | hx, hs⟩
          · subst hx; exact absurd hy hs
          · exact ⟨hx, hs⟩
      · have hy : y ∉ seen := fun hc => h (contains_iff_mem.mpr hc)
        rw [if_neg h]
        simp only [List.mem_cons, ih]
        constructor
        · rintro (rfl | ⟨hx, hs⟩)
          · exact ⟨Or.inl rfl, hy⟩
          · exact ⟨Or.inr hx, fun hc => hs (Or.inr hc)⟩
        · rintro ⟨rfl | hx, hs⟩
          · exact Or.inl rfl
          · by_cases hxy : x = y
            · exact Or.inl hxy
            · exact Or.inr ⟨hx, fun hc => hc.elim hxy hs⟩

theorem mem_lodashUniq {x : String} {l : List String} :
    x ∈ lodashUniq l ↔ x ∈ l := by
  simp [lodashUniq, mem_lodashUniqAux]

theorem nodup_lodashUniqAux (l seen : List String) :
    (lodashUniqAux seen l).Nodup := by
  induction l generalizing seen with
  | nil => simp [lodashUniqAux]
  | cons y ys ih =>
      simp only [lodashUniqAux]
      by_cases h : seen.contains y = true
      · rw [if_pos h]; exact ih seen
      · rw [if_neg h]
        refine List.Nodup.cons ?_ (ih (y :: seen))
        intro hc
        exact ((mem_lodashUniqAux ys (y :: seen)).mp hc).2 (List.mem_cons_self y seen)

theorem nodup_lodashUniq (l : List String) : (lodashUniq l).Nodup :=
  nodup_lodashUniqAux l []

theorem mem_lodashIntersection {x : String} {a b : List String} :
    x ∈ lodashIntersection a b ↔ x ∈ a ∧ x ∈ b := by
  simp only [lodashIntersection, List.mem_filter, mem_lodashUniq]
  exact and_congr Iff.rfl contains_iff_mem

theorem nodup_lodashIntersection (a b : List String) :
    (lodashIntersection a b).Nodup :=
  (nodup_lodashUniq a).filter _

/-! ### Helper lemmas about the ownership partition -/

theorem ownedPartition_cons (uc : UserClient) (rest : List UserClient)
    (peers : List Peer) :
    ownedPartition (uc :: rest) peers =
      if (peers.filter (fun peer => ownsPeer uc peer)).length > 0
      then (uc, peers.filter (fun peer => ownsPeer uc peer)) ::
             ownedPartition rest (peers.filter (fun peer => !ownsPeer uc peer))
      else ownedPartition rest (peers.filter (fun peer => !ownsPeer uc peer)) := rfl

theorem mem_of_mem_ownedPartition :
    ∀ (clients : List UserClient) (peers : List Peer)
      (e : UserClient × List Peer) (p : Peer),
      e ∈ ownedPartition clients peers → p ∈ e.2 → p ∈ peers := by
  intro clients
  induction clients with
  | nil =>
      intro peers e p he _
      simp [ownedPartition] at he
  | cons uc rest ih =>
      intro peers e p he hp
      rw [ownedPartition_cons] at he
      by_cases h : (peers.filter (fun peer => ownsPeer uc peer)).length > 0
      · rw [if_pos h] at he
        rcases List.mem_cons.mp he with rfl | he2
        · exact (List.mem_filter.mp hp).1
        · exact (List.mem_filter.mp (ih _ e p he2 hp)).1
      · rw [if_neg h] at he
        exact (List.mem_filter.mp (ih _ e p he hp)).1

theorem pairwise_disjoint_ownedPartition :
    ∀ (clients : List UserClient) (peers : List Peer),
      List.Pairwise (fun a b => ∀ p : Peer, p ∈ a.2 → p ∉ b.2)
        (ownedPartition clients peers) := by
  intro clients
  induction clients with
  | nil => intro peers; simp [ownedPartition]
  | cons uc rest ih =>
      intro peers
      rw [ownedPartition_cons]
      by_cases h : (peers.filter (fun peer => ownsPeer uc peer)).length > 0
      · rw [if_pos h]
        refine List.Pairwise.cons ?_ (ih _)
        intro b hb p hp hpb
        have h1 : ownsPeer uc p = true := (List.mem_filter.mp hp).2
        have h2 := mem_of_mem_ownedPartition rest _ b p hb hpb
        have h3 := (List.mem_filter.mp h2).2
        simp [h1] at h3
      · rw [if_neg h]
        exact ih _

theorem filter_ownedPartition_eq_firstOwner :
    ∀ (clients : List UserClient) (peers : List Peer) (p : Peer), p ∈ peers →
      ((ownedPartition clients peers).filter (fun e => decide (p ∈ e.2))).map Prod.fst
        = (clients.find? (fun uc => ownsPeer uc p)).toList := by
  intro clients
  induction clients with
  | nil => intro peers p _; simp [ownedPartition]
  | cons uc rest ih =>
      intro peers p hp
      rw [ownedPartition_cons]
      by_cases hoc : ownsPeer uc p = true
      · have hfind : List.find? (fun c => ownsPeer c p) (uc :: rest) = some uc :=
          List.find?_cons_of_pos rest hoc
        rw [hfind]
        have hpo : p ∈ peers.filter (fun peer => ownsPeer uc peer) :=
          List.mem_filter.mpr ⟨hp, hoc⟩
        have hlen : (peers.filter (fun peer => ownsPeer uc peer)).length > 0 :=
          List.length_pos.mpr (List.ne_nil_of_mem hpo)
        rw [if_pos hlen]
        have hrest : ∀ e ∈ ownedPartition rest
            (peers.filter (fun peer => !ownsPeer uc peer)), p ∉ e.2 := by
          intro e he hpe
          have h2 := mem_of_mem_ownedPartition rest _ e p he hpe
          have h3 := (List.mem_filter.mp h2).2
          simp [hoc] at h3
        have hnil : (ownedPartition rest
            (peers.filter (fun peer => !ownsPeer uc peer))).filter
              (fun e => decide (p ∈ e.2)) = [] :=
          List.filter_eq_nil_iff.mpr (fun e he => by simp [hrest e he])
        rw [List.filter_cons_of_pos (by simpa using hpo), hnil]
        rfl
      · have hfind : List.find? (fun c => ownsPeer c p) (uc :: rest)
            = List.find? (fun c => ownsPeer c p) rest :=
          List.find?_cons_of_neg rest hoc
        rw [hfind]
        have hpr : p ∈ peers.filter (fun peer => !ownsPeer uc peer) :=
          List.mem_filter.mpr ⟨hp, by simp [hoc]⟩
        by_cases hlen : (peers.filter (fun peer => ownsPeer uc peer)).length > 0
        · rw [if_pos hlen]
          have hnp : p ∉ peers.filter (fun peer => ownsPeer uc peer) :=
            fun hc => hoc (List.mem_filter.mp hc).2
          rw [List.filter_cons_of_neg (by simpa using hnp)]
          exact ih _ p hpr
        · rw [if_neg hlen]
          exact ih _ p hpr

/-! ### Helper lemmas about `promiseAll` and the waiter callbacks -/

theorem promiseAll_eq_error {ε α : Type} :
    ∀ (xs : List (Except ε α)) (i : Nat) (e : ε),
      xs[i]? = some (.error e) → (∀ j, j < i → ∃ a, xs[j]? = some (.ok a)) →
      promiseAll xs = .error e := by
  intro xs
  induction xs with
  | nil => intro i e hi _; simp at hi
  | cons x rest ih =>
      intro i e hi hj
      cases i with
      | zero =>
          rw [List.getElem?_cons_zero] at hi
          cases hi
          rfl
      | succ n =>
          obtain ⟨a, ha⟩ := hj 0 (Nat.succ_pos n)
          rw [List.getElem?_cons_zero] at ha
          cases ha
          rw [List.getElem?_cons_succ] at hi
          have hrest := ih n e hi
            (fun j hjn => by simpa using hj (j + 1) (Nat.succ_lt_succ hjn))
          simp only [promiseAll, hrest]

theorem getElem?_invokeCb (ws : List Waiter) (j i : Nat) :
    (invokeCb ws j)[i]? =
      if i = j then (ws[i]?).map resolveWaiter else ws[i]? := by
  unfold invokeCb
  cases hw : ws[j]? with
  | none =>
      by_cases hij : i = j
      · subst hij; simp [hw]
      · simp [hij]
  | some w =>
      by_cases hij : i = j
      · subst hij
        have hlt : i < ws.length := by
          rcases List.getElem?_eq_some_iff.mp hw with ⟨h, _⟩
          exact h
        simp [List.getElem?_set_self hlt, hw]
      · simp [List.getElem?_set_ne (fun hc => hij hc.symm), hij]

theorem resolveWaiter_status_ne_pending (w : Waiter) :
    (resolveWaiter w).status ≠ .pending := by
  unfold resolveWaiter
  by_cases h : w.status = .pending
  · simp [h]
  · simp [h]

theorem getElem?_invokeCbs (cbs : List Nat) (ws : List Waiter) (i : Nat) :
    (invokeCbs ws cbs)[i]? =
      if i ∈ cbs then (ws[i]?).map resolveWaiter else ws[i]? := by
  induction cbs generalizing ws with
  | nil => simp [invokeCbs]
  | cons c cs ih =>
      show (invokeCbs (invokeCb ws c) cs)[i]? = _
      rw [ih]
      by_cases hic : i ∈ cs
      · rw [if_pos hic, if_pos (List.mem_cons_of_mem c hic)]
        rw [getElem?_invokeCb]
        by_cases hij : i = c
        · rw [if_pos hij]
          cases ws[i]? with
          | none => rfl
          | some w =>
              show some (resolveWaiter (resolveWaiter w)) = some (resolveWaiter w)
              have hrr : resolveWaiter (resolveWaiter w) = resolveWaiter w := by
                unfold resolveWaiter
                by_cases h : w.status = .pending <;> simp [h]
              rw [hrr]
        · rw [if_neg hij]
      · rw [if_neg hic, getElem?_invokeCb]
        by_cases hij : i = c
        · rw [if_pos hij, if_pos (hij ▸ List.mem_cons_self c cs)]
        · rw [if_neg hij, if_neg (fun hc => (List.mem_cons.mp hc).elim hij hic)]

theorem fire_none_of_not_pending (st : TimedState) (i : Nat) (w : Waiter)
    (hw : st.waiters[i]? = some w) (hst : w.status ≠ .pending) :
    step st (.fire i) = none := by
  simp only [step, hw]
  rw [if_neg (fun hc => hst hc.1)]

theorem fire_timeout_of_deadline (st : TimedState) (i : Nat) (w : Waiter)
    (hw : st.waiters[i]? = some w) (hp : w.status = .pending)
    (hd : w.deadline ≤ st.now) :
    step st (.fire i) = some
      { st with waiters := st.waiters.set i { deadline := w.deadline,
                                              status := .timedOut } } := by
  simp only [step, hw]
  rw [if_pos ⟨hp, hd⟩]

/-! ### Helper lemmas about the end handler and the data handler's frame -/

theorem jsSpliceRemoveOne_nonneg {α : Type} (xs : List α) (n : Nat)
    (h : n ≤ xs.length) :
    jsSpliceRemoveOne xs (n : Int) = xs.take n ++ xs.drop (n + 1) := by
  unfold jsSpliceRemoveOne
  have h1 : ¬ ((n : Int) < 0) := by omega
  have h2 : min (n : Int) ((xs.length : Nat) : Int) = (n : Int) :=
    min_eq_left (by exact_mod_cast h)
  simp only [if_neg h1, h2, Int.toNat_ofNat]

theorem jsSplice_indexOf_eq_erase :
    ∀ (xs : List Nat) (x : Nat), x ∈ xs →
      ∃ n : Nat, jsIndexOf xs x = (n : Int) ∧ n < xs.length ∧
        jsSpliceRemoveOne xs (jsIndexOf xs x) = xs.erase x := by
  intro xs
  induction xs with
  | nil => intro x hx; cases hx
  | cons y ys ih =>
      intro x hx
      by_cases hyx : y = x
      · subst hyx
        refine ⟨0, ?_, by simp, ?_⟩
        · simp [jsIndexOf]
        · have h0 : jsIndexOf (y :: ys) y = ((0 : Nat) : Int) := by simp [jsIndexOf]
          rw [h0, jsSpliceRemoveOne_nonneg _ _ (Nat.zero_le _)]
          simp
      · have hxys : x ∈ ys := by
          rcases List.mem_cons.mp hx with h | h
          · exact absurd h.symm hyx
          · exact h
        obtain ⟨n, hidx, hlt, hsp⟩ := ih x hxys
        have hIdxCons : jsIndexOf (y :: ys) x = (n : Int) + 1 := by
          unfold jsIndexOf
          rw [if_neg hyx]
          simp only [hidx]
          rw [if_neg (by omega : ¬ ((n : Int) = -1))]
        refine ⟨n + 1, ?_, by simpa using Nat.succ_lt_succ hlt, ?_⟩
        · rw [hIdxCons]; omega
        · rw [hIdxCons]
          have hcast : ((n : Int) + 1) = ((n + 1 : Nat) : Int) := by omega
          rw [hcast, jsSpliceRemoveOne_nonneg _ _ (by simp only [List.length_cons]; omega)]
          have hsp2 : ys.take n ++ ys.drop (n + 1) = ys.erase x := by
            rw [← jsSpliceRemoveOne_nonneg ys n (le_of_lt hlt), ← hidx]
            exact hsp
          rw [List.take_succ_cons, List.drop_succ_cons, List.cons_append, hsp2,
            List.erase_cons_tail (by simpa using hyx)]

theorem handleData_not_complete (t : ServerState) (m : String)
    (h : ¬ ((newResponses t m).length = t.externalMspIds.length)) :
    (handleData t m).1 = { t with mspResponses := newResponses t m }
    ∧ (handleData t m).2 = [] := by
  simp [handleData, h]

theorem handleData_preserves_frame (s : ServerState) (message : String) :
    (handleData s message).1.externalMspIds = s.externalMspIds
    ∧ (handleData s message).1.clients = s.clients
    ∧ (handleData s message).1.waitResponsesCbs = s.waitResponsesCbs
    ∧ (handleData s message).1.port = s.port := by
  by_cases h : (newResponses s message).length = s.externalMspIds.length <;>
    simp [handleData, h]

/-! ### Concrete fixtures used by the witnesses -/

/-- A server mid-round: expected `{A, B}`, `"A"` already reported, two
connected sockets and two registered waiter callbacks. -/
def sampleState : ServerState :=
  { clients := [1, 2], externalMspIds := ["A", "B"], mspResponses := ["A"],
    waitResponsesCbs := [0, 1], requesting := false, port := DEFAULT_PORT }

/-- A freshly constructed server expecting `{A, B}`. -/
def freshServer : ServerState :=
  { clients := [], externalMspIds := ["A", "B"], mspResponses := [],
    waitResponsesCbs := [], requesting := false, port := DEFAULT_PORT }

/-- Constructor options supplying an explicit expected set. -/
def optsExplicit : ServerOpts :=
  { userClient := none, channel := none, externalMspIds := some ["A", "B"],
    port := none }

/-- A peer provisioned and administered by organization `A`. -/
def peerA : Peer := { pid := 0, mspId := "A", adminMspIds := ["A"] }

/-- A peer provisioned and administered by organization `B`. -/
def peerB : Peer := { pid := 1, mspId := "B", adminMspIds := ["B"] }

/-- A peer administrable by both `A` and `B`, provisioned under `B`. -/
def peerAB : Peer := { pid := 2, mspId := "B", adminMspIds := ["A", "B"] }

/-- A peer owned by an organization with no client present. -/
def peerZ : Peer := { pid := 3, mspId := "Z", adminMspIds := ["Z"] }

/-- The client of organization `A`. -/
def clientA : UserClient := { mspId := "A" }

/-- The client of organization `B`. -/
def clientB : UserClient := { mspId := "B" }

/-- A channel holding the four sample peers. -/
def channelSample : ChannelModel := { peers := [peerA, peerB, peerAB, peerZ] }

/-- Constructor options with a user client but no channel and no explicit
expected set. -/
def optsMissing : ServerOpts :=
  { userClient := some clientA, channel := none, externalMspIds := none,
    port := none }

/-- Constructor options from which the expected set must be derived. -/
def optsDerived : ServerOpts :=
  { userClient := some clientA, channel := some channelSample,
    externalMspIds := none, port := none }

/-- A sub-operation that always succeeds. -/
def sampleCall : UserClient → List Peer → Except Nat (SubResponse Nat Nat Nat) :=
  fun _ _ => .ok { data := 7, wait := .ok 3 }

/-- A sub-operation whose immediate phase fails for organization `A`. -/
def sampleFailCall : UserClient → List Peer → Except Nat (SubResponse Nat Nat Nat) :=
  fun uc _ => if uc.mspId = "A" then .error 42 else .ok { data := 7, wait := .ok 3 }

/-- A sub-operation whose immediate phase succeeds but whose deferred
completion fails. -/
def sampleWaitFailCall : UserClient → List Peer → Except Nat (SubResponse Nat Nat Nat) :=
  fun _ _ => .ok { data := 7, wait := .error 9 }

/-! ### Claim theorems -/

/-- Claim C1 — code bug, evaluated at the failing input.  The source never
assigns `true` to `this.requesting`: the field is initialized `false`, reset
to `false` on round completion, and checked by the connection handler, but
`requestResponses` (the only transition the spec calls **Requesting**) does
not set it.  Consequently, after constructing a server and calling
`requestResponses`, the round-in-progress flag is still `false` and a
participant connecting afterwards (socket `7`) is written no message at
all — contradicting the claimed immediate late-joiner `"request"`
delivery. -/
theorem c1_late_joiner_gets_no_request :
    mkChannelSetupServer optsExplicit = .ok freshServer
    ∧ (requestResponses freshServer 0).1.requesting = false
    ∧ (handleConnection (requestResponses freshServer 0).1 7).2 = [] :=
  ⟨rfl, rfl, rfl⟩

/-- Claim C4: the instant the reported set (after intersection with the
expected set) has the same size as the expected set, the data handler
invokes every registered waiter callback — the invoked sequence equals the
registered list, so each registration is invoked exactly once for the
round — resets `mspResponses` to `[]`, and resets the round-in-progress
flag `requesting` to `false`. -/
theorem c4_round_completion_invokes_and_resets (s : ServerState) (message : String)
    (h : (newResponses s message).length = s.externalMspIds.length) :
    (handleData s message).2 = s.waitResponsesCbs
    ∧ (handleData s message).1.mspResponses = []
    ∧ (handleData s message).1.requesting = false := by
  simp [handleData, h]

theorem c4_witness :
    (newResponses sampleState "B").length = sampleState.externalMspIds.length
    ∧ ((handleData sampleState "B").2 = sampleState.waitResponsesCbs
        ∧ (handleData sampleState "B").1.mspResponses = []
        ∧ (handleData sampleState "B").1.requesting = false) :=
  ⟨by decide, c4_round_completion_invokes_and_resets sampleState "B" (by decide)⟩

/-- Claim C10: round completion resets only the reported set and the round
flag, never the waiter-callback list — the data handler leaves
`waitResponsesCbs` unchanged in both branches, `requestResponses` only ever
appends to it, and a round completion invokes the entire registered list,
so every callback registered by any past `requestResponses` call (resolved
or timed out included) is invoked again at every subsequent completion. -/
theorem c10_callbacks_persist_across_rounds (s : ServerState) (message : String)
    (cbId : Nat) :
    (handleData s message).1.waitResponsesCbs = s.waitResponsesCbs
    ∧ (requestResponses s cbId).1.waitResponsesCbs = s.waitResponsesCbs ++ [cbId]
    ∧ ((newResponses s message).length = s.externalMspIds.length →
        (handleData s message).2 = s.waitResponsesCbs) :=
  ⟨(handleData_preserves_frame s message).2.2.1, rfl, fun h => by simp [handleData, h]⟩

theorem c10_witness :
    (handleData sampleState "B").1.waitResponsesCbs = sampleState.waitResponsesCbs
    ∧ (requestResponses sampleState 7).1.waitResponsesCbs
        = sampleState.waitResponsesCbs ++ [7]
    ∧ (handleData sampleState "B").2 = sampleState.waitResponsesCbs := by
  have h := c10_callbacks_persist_across_rounds sampleState "B" 7
  exact ⟨h.1, h.2.1, h.2.2 (by decide)⟩

/-- Claim C8: construction fails (throws, embedded as `Except.error`, which
carries no server state — no partial server) when neither an explicit
`externalMspIds` nor both a `userClient` and a `channel` are supplied; and
when the expected set is derived, it is duplicate-free and contains exactly
the MSP identifiers of the channel's peers not administrable by the local
organization's MSP id. -/
theorem c8_constructor_validation (opts : ServerOpts) :
    (opts.externalMspIds = none → (opts.userClient = none ∨ opts.channel = none) →
      mkChannelSetupServer opts
        = .error "Error: either externalMspIds or userClient and channel are required")
    ∧ (∀ uc ch, opts.externalMspIds = none → opts.userClient = some uc →
        opts.channel = some ch →
        ∃ s, mkChannelSetupServer opts = .ok s
          ∧ s.externalMspIds.Nodup
          ∧ (∀ x, x ∈ s.externalMspIds ↔
              ∃ p ∈ ch.peers, uc.mspId ∉ p.adminMspIds ∧ p.mspId = x)) := by
  constructor
  · intro hext hor
    unfold mkChannelSetupServer
    rw [hext]
    rcases hor with h | h
    · rw [h]
    · rw [h]; cases opts.userClient <;> rfl
  · intro uc ch hext huc hch
    unfold mkChannelSetupServer
    rw [hext, huc, hch]
    refine ⟨_, rfl, nodup_lodashUniq _, ?_⟩
    intro x
    simp only [mem_lodashUniq, List.mem_map, List.mem_filter]
    constructor
    · rintro ⟨p, ⟨hp, hnc⟩, rfl⟩
      exact ⟨p, hp, not_contains_iff_not_mem.mp hnc, rfl⟩
    · rintro ⟨p, hp, hnm, rfl⟩
      exact ⟨p, ⟨hp, not_contains_iff_not_mem.mpr hnm⟩, rfl⟩

theorem c8_witness :
    mkChannelSetupServer optsMissing
      = .error "Error: either externalMspIds or userClient and channel are required"
    ∧ ∃ s, mkChannelSetupServer optsDerived = .ok s
        ∧ s.externalMspIds.Nodup
        ∧ (∀ x, x ∈ s.externalMspIds ↔
            ∃ p ∈ channelSample.peers,
              clientA.mspId ∉ p.adminMspIds ∧ p.mspId = x) :=
  ⟨(c8_constructor_validation optsMissing).1 rfl (Or.inr rfl),
   (c8_constructor_validation optsDerived).2 clientA channelSample rfl rfl rfl⟩

/-- Claim C9: when a participant's connection ends, exactly that socket is
removed from the connected-client set (the first occurrence is erased), the
reported set, callback list and round flag are untouched, and the data
handler afterwards behaves identically to before the disconnection — so
identifiers already reported keep counting and the round can still complete
from the reports of other participants. -/
theorem c9_disconnection_neutral (s : ServerState) (sock : Nat) (message : String)
    (h : sock ∈ s.clients) :
    (handleEnd s sock).clients = s.clients.erase sock
    ∧ (handleEnd s sock).mspResponses = s.mspResponses
    ∧ (handleEnd s sock).waitResponsesCbs = s.waitResponsesCbs
    ∧ (handleEnd s sock).requesting = s.requesting
    ∧ (handleData (handleEnd s sock) message).1.mspResponses
        = (handleData s message).1.mspResponses
    ∧ (handleData (handleEnd s sock) message).2 = (handleData s message).2 := by
  have hnr : newResponses (handleEnd s sock) message = newResponses s message := rfl
  have hext : (handleEnd s sock).externalMspIds = s.externalMspIds := rfl
  have hcbs : (handleEnd s sock).waitResponsesCbs = s.waitResponsesCbs := rfl
  refine ⟨?_, rfl, rfl, rfl, ?_, ?_⟩
  · obtain ⟨n, _, _, hsp⟩ := jsSplice_indexOf_eq_erase s.clients sock h
    exact hsp
  · simp only [handleData, hnr, hext]
    by_cases h2 : (newResponses s message).length = s.externalMspIds.length <;>
      simp [h2]
  · simp only [handleData, hnr, hext, hcbs]
    by_cases h2 : (newResponses s message).length = s.externalMspIds.length <;>
      simp [h2]

/-- Claim C7, over the discrete-event embedding of `requestResponses` and
its `setTimeout` timer.  (1) Every call registers its own waiter with its
own absolute deadline `now + timeout` (an independent timer per call),
leaves all existing waiters untouched, and appends its callback to the
shared `waitResponsesCbs` of the shared round state.  (2) When a received
message completes the round, every registered waiter's promise is settled
in that same step — all waiters are released together — and the timer of
each of them is canceled immediately: its `fire` event is disabled from the
resulting state on.  (3) A pending waiter whose timer was not canceled
fails with the timeout rejection exactly at its deadline, and only that
waiter is touched.  (4) The clock invariant "no pending waiter's deadline
lies in the past" is preserved by every event, so time cannot pass a
pending deadline without the timeout firing: the call fails within
`timeoutMs` rather than hanging. -/
theorem c7_request_responses_timeout_semantics :
    (∀ (st : TimedState) (timeout : Nat),
        step st (.callRequest timeout) = some
          { st with
              server := { st.server with
                            waitResponsesCbs :=
                              st.server.waitResponsesCbs ++ [st.waiters.length] },
              waiters := st.waiters ++ [{ deadline := st.now + timeout,
                                          status := .pending }] })
    ∧ (∀ (st st2 : TimedState) (message : String),
        (newResponses st.server message).length = st.server.externalMspIds.length →
        step st (.recv message) = some st2 →
        st2.now = st.now
        ∧ ∀ i ∈ st.server.waitResponsesCbs, ∀ w : Waiter, st.waiters[i]? = some w →
            st2.waiters[i]? = some (resolveWaiter w) ∧ step st2 (.fire i) = none)
    ∧ (∀ (st : TimedState) (i : Nat) (w : Waiter), TimerInv st →
        st.waiters[i]? = some w → w.status = .pending → w.deadline ≤ st.now →
        st.now = w.deadline
        ∧ step st (.fire i) = some
            { st with waiters := st.waiters.set i { deadline := w.deadline,
                                                    status := .timedOut } })
    ∧ (∀ (st st2 : TimedState) (ev : SrvEvent), TimerInv st →
        step st ev = some st2 → TimerInv st2) := by
  refine ⟨fun st timeout => rfl, ?_, ?_, ?_⟩
  · intro st st2 message hc hstep
    simp only [step] at hstep
    injection hstep with h2
    subst h2
    have hd2 : (handleData st.server message).2 = st.server.waitResponsesCbs := by
      simp [handleData, hc]
    refine ⟨rfl, ?_⟩
    intro i hi w hw
    have hgot : (invokeCbs st.waiters (handleData st.server message).2)[i]?
        = some (resolveWaiter w) := by
      rw [hd2, getElem?_invokeCbs, if_pos hi, hw]
      rfl
    exact ⟨hgot, fire_none_of_not_pending _ i (resolveWaiter w) hgot
      (resolveWaiter_status_ne_pending w)⟩
  · intro st i w hInv hw hp hd
    have hmem : w ∈ st.waiters := List.getElem?_mem hw
    have hle := hInv w hmem hp
    exact ⟨by omega, fire_timeout_of_deadline st i w hw hp hd⟩
  · intro st st2 ev hInv hstep
    cases ev with
    | connect sock =>
        simp only [step] at hstep
        injection hstep with h2
        subst h2
        exact fun w hw hp => hInv w hw hp
    | disconnect sock =>
        simp only [step] at hstep
        injection hstep with h2
        subst h2
        exact fun w hw hp => hInv w hw hp
    | recv message =>
        simp only [step] at hstep
        injection hstep with h2
        subst h2
        intro w hw hp
        obtain ⟨n, hn⟩ := List.mem_iff_getElem?.mp hw
        rw [getElem?_invokeCbs] at hn
        by_cases hmem : n ∈ (handleData st.server message).2
        · rw [if_pos hmem] at hn
          cases hw0 : st.waiters[n]? with
          | none => rw [hw0] at hn; cases hn
          | some w0 =>
              rw [hw0] at hn
              simp only [Option.map] at hn
              injection hn with h3
              subst h3
              exact absurd hp (resolveWaiter_status_ne_pending w0)
        · rw [if_neg hmem] at hn
          exact hInv w (List.getElem?_mem hn) hp
    | callRequest timeout =>
        simp only [step] at hstep
        injection hstep with h2
        subst h2
        intro w hw hp
        rcases List.mem_append.mp hw with h3 | h3
        · exact hInv w h3 hp
        · rw [List.mem_singleton.mp h3]
          exact Nat.le_add_right st.now timeout
    | fire i =>
        simp only [step] at hstep
        split at hstep
        · split at hstep
          · injection hstep with h2
            subst h2
            intro w hw hp
            rcases List.mem_or_eq_of_mem_set hw with h3 | h3
            · exact hInv w h3 hp
            · rw [h3] at hp
              cases hp
          · cases hstep
        · cases hstep
    | tick =>
        simp only [step] at hstep
        by_cases hall : st.waiters.all
            (fun w => w.status != .pending || decide (st.now + 1 ≤ w.deadline)) = true
        · rw [if_pos hall] at hstep
          injection hstep with h2
          subst h2
          intro w hw hp
          have hww := List.all_eq_true.mp hall w hw
          rw [hp] at hww
          simp only [bne_self_eq_false, Bool.false_or, decide_eq_true_eq] at hww
          exact hww
        · rw [if_neg hall] at hstep
          cases hstep

/-- A pending waiter whose timer expires at time 5. -/
def waiterPending : Waiter := { deadline := 5, status := .pending }

/-- A timed server state with one registered waiter at its deadline. -/
def tsSample : TimedState :=
  { server := { clients := [1], externalMspIds := ["A"], mspResponses := [],
                waitResponsesCbs := [0], requesting := false, port := DEFAULT_PORT },
    waiters := [waiterPending], now := 5 }

theorem c7_witness :
    tsSample.now = waiterPending.deadline
    ∧ step tsSample (.fire 0) = some
        { tsSample with
            waiters := tsSample.waiters.set 0 { deadline := waiterPending.deadline,
                                                status := .timedOut } } :=
  c7_request_responses_timeout_semantics.2.2.1 tsSample 0 waiterPending
    (by unfold TimerInv; decide) (by decide) (by decide) (by decide)

/-- Claim C2 — counterexample.  At a concrete input the install-style
fan-out succeeds, yet its aggregate result carries no `wait` member at all:
the source's `installChaincode` returns `{ data }` with no `wait` field
(embedded as `wait = none`), refuting "every fan-out (ownership-partitioned)
operation, including install-style operations, returns an aggregate result
that exposes a wait() operation". -/
theorem c2_counterexample :
    multiInstallChaincode [clientA] [peerA] sampleCall
      = .ok { data := [7], wait := none } := rfl

/-- Claim C2 — amended.  The join-channel fan-out returns an aggregate
exposing `wait`, whose invocation runs `Promise.all` over the deferred `wait()` of every
sub-operation (so it returns once all have
completed); the install-style fan-out returns only the collected immediate
data, with no `wait` operation. -/
theorem c2_join_exposes_wait_install_does_not {ε δ ω : Type}
    (clients : List UserClient) (channel : ChannelModel) (targets : List Peer)
    (call : UserClient → List Peer → Except ε (SubResponse ε δ ω))
    (responses : List (SubResponse ε δ ω)) :
    (promiseAll ((ownedPartition clients channel.peers).map (fun pr => call pr.1 pr.2))
        = .ok responses →
      multiJoinChannel clients channel call
        = .ok { data := responses.map (fun r => r.data),
                wait := some (promiseAll (responses.map (fun r => r.wait))) })
    ∧ (promiseAll ((ownedPartition clients targets).map (fun pr => call pr.1 pr.2))
        = .ok responses →
      multiInstallChaincode clients targets call
        = .ok { data := responses.map (fun r => r.data), wait := none }) := by
  constructor
  · intro h
    unfold multiJoinChannel
    rw [h]
  · intro h
    unfold multiInstallChaincode
    rw [h]

theorem c2_witness :
    multiJoinChannel [clientA] { peers := [peerA] } sampleCall
      = .ok { data := [7], wait := some (.ok [3]) }
    ∧ multiInstallChaincode [clientA] [peerA] sampleCall
      = .ok { data := [7], wait := none } := by
  have h := c2_join_exposes_wait_install_does_not [clientA] { peers := [peerA] }
    [peerA] sampleCall [{ data := 7, wait := .ok 3 }]
  exact ⟨h.1 rfl, h.2 rfl⟩

/-- Claim C6: if any single partition's sub-operation fails, the whole
fan-out call fails with the first error in dispatch order — an
`Except.error` result carries no data, so no partial success is reported —
for `joinChannel` and `installChaincode` alike; and the same fail-fast
policy applies independently to the aggregate `wait()` of `joinChannel`. -/
theorem c6_fan_out_fail_fast {ε δ ω : Type} (clients : List UserClient)
    (channel : ChannelModel) (targets : List Peer)
    (call : UserClient → List Peer → Except ε (SubResponse ε δ ω)) :
    (∀ (i : Nat) (e : ε),
        (((ownedPartition clients channel.peers).map (fun pr => call pr.1 pr.2))[i]?
          = some (Except.error e)) →
        (∀ j : Nat, j < i → ∃ r : SubResponse ε δ ω,
          ((ownedPartition clients channel.peers).map
            (fun pr => call pr.1 pr.2))[j]? = some (Except.ok r)) →
        multiJoinChannel clients channel call = .error e)
    ∧ (∀ (i : Nat) (e : ε),
        (((ownedPartition clients targets).map (fun pr => call pr.1 pr.2))[i]?
          = some (Except.error e)) →
        (∀ j : Nat, j < i → ∃ r : SubResponse ε δ ω,
          ((ownedPartition clients targets).map
            (fun pr => call pr.1 pr.2))[j]? = some (Except.ok r)) →
        multiInstallChaincode clients targets call = .error e)
    ∧ (∀ (responses : List (SubResponse ε δ ω)) (i : Nat) (e : ε),
        promiseAll ((ownedPartition clients channel.peers).map (fun pr => call pr.1 pr.2))
          = .ok responses →
        ((responses.map (fun r => r.wait))[i]? = some (Except.error e)) →
        (∀ j : Nat, j < i → ∃ a : ω,
          (responses.map (fun r => r.wait))[j]? = some (Except.ok a)) →
        multiJoinChannel clients channel call
          = .ok { data := responses.map (fun r => r.data),
                  wait := some (.error e) }) := by
  refine ⟨?_, ?_, ?_⟩
  · intro i e hi hj
    have herr := promiseAll_eq_error _ i e hi hj
    unfold multiJoinChannel
    rw [herr]
  · intro i e hi hj
    have herr := promiseAll_eq_error _ i e hi hj
    unfold multiInstallChaincode
    rw [herr]
  · intro responses i e hok hi hj
    have herr := promiseAll_eq_error _ i e hi hj
    unfold multiJoinChannel
    rw [hok]
    show Except.ok ({ data := responses.map (fun r => r.data),
                      wait := some (promiseAll (responses.map (fun r => r.wait))) }
                    : AggregateResult ε δ ω)
        = Except.ok ({ data := responses.map (fun r => r.data),
                       wait := some (.error e) } : AggregateResult ε δ ω)
    rw [herr]

theorem c6_witness :
    multiJoinChannel [clientA, clientB] { peers := [peerA, peerB] } sampleFailCall
      = .error 42
    ∧ multiInstallChaincode [clientA, clientB] [peerA, peerB] sampleFailCall
      = .error 42
    ∧ multiJoinChannel [clientA] { peers := [peerA] } sampleWaitFailCall
      = .ok { data := [7], wait := some (.error 9) } := by
  have h := c6_fan_out_fail_fast [clientA, clientB] { peers := [peerA, peerB] }
    [peerA, peerB] sampleFailCall
  have h2 := c6_fan_out_fail_fast [clientA] { peers := [peerA] } [peerA]
    sampleWaitFailCall
  exact ⟨h.1 0 42 rfl (fun j hj => absurd hj (Nat.not_lt_zero j)),
    h.2.1 0 42 rfl (fun j hj => absurd hj (Nat.not_lt_zero j)),
    h2.2.2 [{ data := 7, wait := .error 9 }] 0 9 rfl rfl
      (fun j hj => absurd hj (Nat.not_lt_zero j))⟩

/-- Claim C3: for every target peer set and every client set, the
per-organization partitions computed by the fan-out operations
(`joinChannel`, `installChaincode` — both use the same claiming loop
embedded as `ownedPartition`) are pairwise disjoint subsets of the target
set; a target peer whose admin-owner set matches a present client lands in
exactly one partition, namely the first matching client's in iteration
order; and a peer with no matching present client appears in no
partition. -/
theorem c3_partition_disjoint_complete (clients : List UserClient) (peers : List Peer) :
    (∀ e ∈ ownedPartition clients peers, ∀ p ∈ e.2, p ∈ peers)
    ∧ List.Pairwise (fun a b => ∀ p : Peer, p ∈ a.2 → p ∉ b.2)
        (ownedPartition clients peers)
    ∧ (∀ p ∈ peers,
        ((ownedPartition clients peers).filter (fun e => decide (p ∈ e.2))).map Prod.fst
          = (clients.find? (fun uc => ownsPeer uc p)).toList)
    ∧ (∀ p ∈ peers, (∃ uc ∈ clients, ownsPeer uc p = true) →
        (ownedPartition clients peers).countP (fun e => decide (p ∈ e.2)) = 1)
    ∧ (∀ p ∈ peers, (∀ uc ∈ clients, ownsPeer uc p = false) →
        ∀ e ∈ ownedPartition clients peers, p ∉ e.2) := by
  refine ⟨fun e he p hp => mem_of_mem_ownedPartition clients peers e p he hp,
    pairwise_disjoint_ownedPartition clients peers,
    fun p hp => filter_ownedPartition_eq_firstOwner clients peers p hp, ?_, ?_⟩
  · intro p hp hex
    have hchar := filter_ownedPartition_eq_firstOwner clients peers p hp
    cases hfind : clients.find? (fun uc => ownsPeer uc p) with
    | none =>
        obtain ⟨uc, hm, ho⟩ := hex
        exact absurd ho (by simpa using List.find?_eq_none.mp hfind uc hm)
    | some v =>
        rw [hfind] at hchar
        rw [List.countP_eq_length_filter]
        have hlen := congrArg List.length hchar
        rw [List.length_map] at hlen
        simpa using hlen
  · intro p hp hnone e he hpe
    have hchar := filter_ownedPartition_eq_firstOwner clients peers p hp
    have hfind : clients.find? (fun uc => ownsPeer uc p) = none :=
      List.find?_eq_none.mpr (fun uc hm => by simp [hnone uc hm])
    rw [hfind] at hchar
    have hnil : (ownedPartition clients peers).filter (fun e => decide (p ∈ e.2)) = [] :=
      List.map_eq_nil_iff.mp hchar
    have hcontra : e ∈ (ownedPartition clients peers).filter
        (fun e => decide (p ∈ e.2)) :=
      List.mem_filter.mpr ⟨he, by simp [hpe]⟩
    rw [hnil] at hcontra
    cases hcontra

theorem c3_witness :
    peerAB ∈ channelSample.peers
    ∧ ((ownedPartition [clientA, clientB] channelSample.peers).filter
        (fun e => decide (peerAB ∈ e.2))).map Prod.fst = [clientA]
    ∧ peerZ ∈ channelSample.peers
    ∧ (∀ e ∈ ownedPartition [clientA, clientB] channelSample.peers, peerZ ∉ e.2) := by
  have h := c3_partition_disjoint_complete [clientA, clientB] channelSample.peers
  refine ⟨by decide, ?_, by decide, ?_⟩
  · have hc := h.2.2.1 peerAB (by decide)
    rw [hc]
    decide
  · exact h.2.2.2.2 peerZ (by decide) (by decide)

/-- Claim C5: the data handler splits the payload on the fixed delimiter
`'-'`, unions the identifiers into the reported set, deduplicates and
intersects with the expected set.  Consequently (a) an identifier outside
the expected set never enters the reported set, so it never contributes
toward completion, and (b) when a message did not complete the round,
processing the very same payload again — the handler is independent of
which connection delivered it — leaves the reported set, and with it the
round-completion condition, unchanged. -/
theorem c5_reporting_idempotent_and_filtered (s : ServerState) (message : String) :
    (∀ z, z ∉ s.externalMspIds → z ∉ (handleData s message).1.mspResponses)
    ∧ ((newResponses s message).length ≠ s.externalMspIds.length →
        (handleData (handleData s message).1 message).1.mspResponses
          = (handleData s message).1.mspResponses) := by
  constructor
  · intro z hz
    by_cases h : (newResponses s message).length = s.externalMspIds.length
    · simp [handleData, h]
    · have hL0 : (handleData s message).1.mspResponses = newResponses s message := by
        simp [handleData, h]
      rw [hL0]
      intro hc
      exact hz (mem_lodashIntersection.mp hc).1
  · intro h
    have hs1 : (handleData s message).1
        = { s with mspResponses := newResponses s message } :=
      (handleData_not_complete s message h).1
    have hNR : newResponses (handleData s message).1 message
        = newResponses s message := by
      rw [hs1]
      show lodashIntersection s.externalMspIds
          (lodashUniq (newResponses s message ++ jsSplit SPLIT_CHAR message))
        = lodashIntersection s.externalMspIds
          (lodashUniq (s.mspResponses ++ jsSplit SPLIT_CHAR message))
      unfold lodashIntersection
      apply List.filter_congr
      intro x hxE
      apply contains_eq_of_mem_iff
      simp only [mem_lodashUniq, List.mem_append]
      constructor
      · rintro (hx | hx)
        · exact List.mem_append.mp
            (mem_lodashUniq.mp (mem_lodashIntersection.mp hx).2)
        · exact Or.inr hx
      · rintro (hx | hx)
        · exact Or.inl (mem_lodashIntersection.mpr
            ⟨mem_lodashUniq.mp hxE,
             mem_lodashUniq.mpr (List.mem_append.mpr (Or.inl hx))⟩)
        · exact Or.inr hx
    have hcond : ¬ ((newResponses (handleData s message).1 message).length
        = ((handleData s message).1.externalMspIds).length) := by
      rw [hNR, (handleData_preserves_frame s message).1]
      exact h
    have hL := (handleData_not_complete (handleData s message).1 message hcond).1
    rw [hL, hNR, hs1]

theorem c5_witness :
    "Z" ∉ (handleData sampleState "A-Z").1.mspResponses
    ∧ (handleData (handleData sampleState "A-Z").1 "A-Z").1.mspResponses
        = (handleData sampleState "A-Z").1.mspResponses := by
  have h := c5_reporting_idempotent_and_filtered sampleState "A-Z"
  exact ⟨h.1 "Z" (by decide), h.2 (by decide)⟩

theorem c9_witness :
    1 ∈ sampleState.clients
    ∧ ((handleEnd sampleState 1).clients = sampleState.clients.erase 1
        ∧ (handleEnd sampleState 1).mspResponses = sampleState.mspResponses
        ∧ (handleEnd sampleState 1).waitResponsesCbs = sampleState.waitResponsesCbs
        ∧ (handleEnd sampleState 1).requesting = sampleState.requesting
        ∧ (handleData (handleEnd sampleState 1) "B").1.mspResponses
            = (handleData sampleState "B").1.mspResponses
        ∧ (handleData (handleEnd sampleState 1) "B").2 = (handleData sampleState "B").2) :=
  ⟨by decide, c9_disconnection_neutral sampleState 1 "B" (by decide)⟩

end Fcw
